import Mathlib

/-
Verification of the dispatch-proxy engine: a shallow embedding of the
weighted round-robin egress selector (src/load_balancer.rs), the SOCKS5
decoder (src/socks.rs), the platform connect setup (src/platform/linux.rs
and src/platform/generic.rs) and the per-connection engine
(src/platform/mod.rs, src/main.rs), together with proofs of the
specification's claims about them.
-/

namespace DispatchProxy

/-- Target address type from a SOCKS5 request (src/load_balancer.rs, enum
TargetAddressType). -/
inductive TargetAddressType where
  | IPv4
  | IPv6
  | Domain
deriving DecidableEq, Repr

/-- A single load balancer endpoint (src/load_balancer.rs, struct
LoadBalancer).  The u32 contention_ratio is modelled as Nat. -/
structure LoadBalancer where
  address : String
  iface : Option String
  contention_ratio : Nat
  is_ipv6 : Bool
deriving DecidableEq, Repr

instance : Inhabited LoadBalancer := ⟨⟨"", none, 0, false⟩⟩

/-- Mutable selector state of the pool (src/load_balancer.rs, struct
PoolState). -/
structure PoolState where
  current_index : Nat
  current_connections : Nat
deriving DecidableEq, Repr

/-- The family filter closure inside get_load_balancer
(src/load_balancer.rs lines 67-73). -/
def familyFilter (target_type : Option TargetAddressType) (lb : LoadBalancer) : Bool :=
  match target_type with
  | some TargetAddressType.IPv4 => !lb.is_ipv6
  | some TargetAddressType.IPv6 => lb.is_ipv6
  | some TargetAddressType.Domain => true
  | none => true

/-- Skip lookup: s.get(idx).copied().unwrap_or(false) on an optional slice
(src/load_balancer.rs lines 77 and 92 and 116).  Out-of-range indices
default to false (not skipped). -/
def isSkipped (skip : Option (List Bool)) (i : Nat) : Bool :=
  match skip with
  | none => false
  | some s => s.getD i false

/-- available_count (src/load_balancer.rs lines 76-79): the number of
indices that are neither skipped nor filtered out by the family filter.
The Rust iterator over enumerate() is modelled as a filter over the index
range. -/
def availableCount (bs : List LoadBalancer) (skip : Option (List Bool))
    (target_type : Option TargetAddressType) : Nat :=
  ((List.range bs.length).filter
    (fun i => !isSkipped skip i && familyFilter target_type (bs.getD i default))).length

/-- use_family_filter = available_count > 0 (src/load_balancer.rs line 82). -/
def useFamilyFilter (bs : List LoadBalancer) (skip : Option (List Bool))
    (target_type : Option TargetAddressType) : Bool :=
  decide (0 < availableCount bs skip target_type)

/-- The successful-match state update (src/load_balancer.rs lines 97-102):
increment current_connections and advance the cursor when the contention
ratio is reached. -/
def advanceState (n : Nat) (w : Nat) (st : PoolState) : PoolState :=
  let cc := st.current_connections + 1
  if w ≤ cc then ⟨(st.current_index + 1) % n, 0⟩ else ⟨st.current_index, cc⟩

/-- One acceptance test of the scan loop: the index is not skipped and
(when the family filter is active) matches the family
(src/load_balancer.rs lines 92-95). -/
def acceptable (bs : List LoadBalancer) (skip : Option (List Bool))
    (target_type : Option TargetAddressType) (useF : Bool) (i : Nat) : Bool :=
  !isSkipped skip i && (!useF || familyFilter target_type (bs.getD i default))

/-- The scan loop of get_load_balancer (src/load_balancer.rs lines 88-124).
fuel counts the remaining iterations before the iterations >= len check
fires; the Rust loop body runs fuel + 1 times at most.  The fallback
(lines 113-122) scans for the first non-skipped index in order and
otherwise returns the start index. -/
def scanLoop (bs : List LoadBalancer) (skip : Option (List Bool))
    (target_type : Option TargetAddressType) (useF : Bool) (startIndex : Nat) :
    Nat → PoolState → Nat × PoolState
  | fuel, st =>
    let idx := st.current_index
    let lb := bs.getD idx default
    if !isSkipped skip idx && (!useF || familyFilter target_type lb) then
      (idx, advanceState bs.length lb.contention_ratio st)
    else
      let st2 : PoolState := ⟨(st.current_index + 1) % bs.length, 0⟩
      match fuel with
      | 0 =>
        match (List.range bs.length).find? (fun i => !isSkipped skip i) with
        | some i => (i, st2)
        | none => (startIndex, st2)
      | fuel' + 1 => scanLoop bs skip target_type useF startIndex fuel' st2

/-- get_load_balancer (src/load_balancer.rs lines 60-125) as a pure state
transformer: returns the selected index together with the selector state
after the call.  (The Rust function also returns a clone of the selected
descriptor, recoverable as bs.getD idx default.) -/
def get_load_balancer (bs : List LoadBalancer) (skip : Option (List Bool))
    (target_type : Option TargetAddressType) (st : PoolState) : Nat × PoolState :=
  scanLoop bs skip target_type (useFamilyFilter bs skip target_type)
    st.current_index (bs.length - 1) st

/-- bs.getD i default is a member of bs when i is in range. -/
theorem getD_mem {bs : List LoadBalancer} {i : Nat} (h : i < bs.length) :
    bs.getD i default ∈ bs := by
  rw [List.getD_eq_getElem _ _ h]
  exact List.getElem_mem h

/-- scanLoop unfolded through the acceptance test. -/
theorem scanLoop_eq_if (bs : List LoadBalancer) (skip : Option (List Bool))
    (tt : Option TargetAddressType) (useF : Bool) (si fuel : Nat) (st : PoolState) :
    scanLoop bs skip tt useF si fuel st =
      if acceptable bs skip tt useF st.current_index then
        (st.current_index,
          advanceState bs.length (bs.getD st.current_index default).contention_ratio st)
      else
        match fuel with
        | 0 =>
          match (List.range bs.length).find? (fun i => !isSkipped skip i) with
          | some i => (i, ⟨(st.current_index + 1) % bs.length, 0⟩)
          | none => (si, ⟨(st.current_index + 1) % bs.length, 0⟩)
        | fuel' + 1 =>
          scanLoop bs skip tt useF si fuel' ⟨(st.current_index + 1) % bs.length, 0⟩ := by
  rw [scanLoop]
  rfl

/-- The scan always returns an index below the pool size. -/
theorem scanLoop_fst_lt {bs : List LoadBalancer} {skip : Option (List Bool)}
    {tt : Option TargetAddressType} {useF : Bool} {si : Nat} (hsi : si < bs.length) :
    ∀ (fuel : Nat) {st : PoolState}, st.current_index < bs.length →
      (scanLoop bs skip tt useF si fuel st).1 < bs.length := by
  intro fuel
  induction fuel with
  | zero =>
    intro st hst
    rw [scanLoop_eq_if]
    split
    · exact hst
    · cases hf : (List.range bs.length).find? (fun i => !isSkipped skip i) with
      | none => simpa [hf] using hsi
      | some i =>
        have hi : i ∈ List.range bs.length := List.mem_of_find?_eq_some hf
        simpa [hf] using List.mem_range.mp hi
  | succ fuel ih =>
    intro st hst
    rw [scanLoop_eq_if]
    split
    · exact hst
    · exact ih (Nat.mod_lt _ (Nat.lt_of_le_of_lt (Nat.zero_le _) hst))

/-- Selector-state invariant after the scan: the cursor stays in range and
the connection counter stays below the contention ratio at the cursor
(weights all at least 1). -/
theorem scanLoop_post_inv {bs : List LoadBalancer} {skip : Option (List Bool)}
    {tt : Option TargetAddressType} {useF : Bool} {si : Nat}
    (hw : ∀ lb ∈ bs, 1 ≤ lb.contention_ratio) :
    ∀ (fuel : Nat) {st : PoolState}, st.current_index < bs.length →
      (scanLoop bs skip tt useF si fuel st).2.current_index < bs.length ∧
      (scanLoop bs skip tt useF si fuel st).2.current_connections <
        (bs.getD (scanLoop bs skip tt useF si fuel st).2.current_index
          default).contention_ratio := by
  intro fuel
  have hstep : ∀ st : PoolState, st.current_index < bs.length →
      acceptable bs skip tt useF st.current_index = true →
      ∀ r : Nat × PoolState,
        r = (st.current_index,
          advanceState bs.length (bs.getD st.current_index default).contention_ratio st) →
        r.2.current_index < bs.length ∧
        r.2.current_connections < (bs.getD r.2.current_index default).contention_ratio := by
    intro st hst _hA r hr
    subst hr
    unfold advanceState
    dsimp only
    split
    · have hlt : (st.current_index + 1) % bs.length < bs.length :=
        Nat.mod_lt _ (Nat.lt_of_le_of_lt (Nat.zero_le _) hst)
      exact ⟨hlt, hw _ (getD_mem hlt)⟩
    · next hcc =>
      exact ⟨hst, Nat.lt_of_not_le hcc⟩
  induction fuel with
  | zero =>
    intro st hst
    rw [scanLoop_eq_if]
    split
    · next hA => exact hstep st hst hA _ rfl
    · have hlt : (st.current_index + 1) % bs.length < bs.length :=
        Nat.mod_lt _ (Nat.lt_of_le_of_lt (Nat.zero_le _) hst)
      cases hf : (List.range bs.length).find? (fun i => !isSkipped skip i) <;>
        exact ⟨hlt, hw _ (getD_mem hlt)⟩
  | succ fuel ih =>
    intro st hst
    rw [scanLoop_eq_if]
    split
    · next hA => exact hstep st hst hA _ rfl
    · exact ih (Nat.mod_lt _ (Nat.lt_of_le_of_lt (Nat.zero_le _) hst))

/-- If some index within fuel steps of the cursor (circularly) is
acceptable, the scan returns an acceptable index. -/
theorem scanLoop_finds {bs : List LoadBalancer} {skip : Option (List Bool)}
    {tt : Option TargetAddressType} {useF : Bool} {si : Nat} :
    ∀ (fuel : Nat) {st : PoolState}, st.current_index < bs.length →
      (∃ d, d ≤ fuel ∧
        acceptable bs skip tt useF ((st.current_index + d) % bs.length) = true) →
      acceptable bs skip tt useF (scanLoop bs skip tt useF si fuel st).1 = true := by
  intro fuel
  induction fuel with
  | zero =>
    intro st hst hex
    obtain ⟨d, hd, hP⟩ := hex
    have hd0 : d = 0 := Nat.le_zero.mp hd
    subst hd0
    have hA : acceptable bs skip tt useF st.current_index = true := by
      simpa [Nat.mod_eq_of_lt hst] using hP
    rw [scanLoop_eq_if]
    simp only [hA, if_true]
  | succ fuel ih =>
    intro st hst hex
    obtain ⟨d, hd, hP⟩ := hex
    rw [scanLoop_eq_if]
    by_cases hA : acceptable bs skip tt useF st.current_index = true
    · simp only [hA, if_true]
    · simp only [hA, if_false, Bool.false_eq_true]
      have hd1 : d ≠ 0 := by
        rintro rfl
        exact hA (by simpa [Nat.mod_eq_of_lt hst] using hP)
      obtain ⟨e, rfl⟩ : ∃ e, d = e + 1 := ⟨d - 1, (Nat.succ_pred_eq_of_pos (Nat.pos_of_ne_zero hd1)).symm⟩
      apply ih (Nat.mod_lt _ (Nat.lt_of_le_of_lt (Nat.zero_le _) hst))
      refine ⟨e, Nat.le_of_succ_le_succ hd, ?_⟩
      have hmod : ((st.current_index + 1) % bs.length + e) % bs.length =
          (st.current_index + (e + 1)) % bs.length := by
        rw [Nat.mod_add_mod]
        congr 1
        omega
      rw [hmod]
      exact hP

/-- If the scan returns a skipped index, every index is skipped. -/
theorem scanLoop_skipped {bs : List LoadBalancer} {skip : Option (List Bool)}
    {tt : Option TargetAddressType} {useF : Bool} {si : Nat} :
    ∀ (fuel : Nat) {st : PoolState}, st.current_index < bs.length →
      isSkipped skip (scanLoop bs skip tt useF si fuel st).1 = true →
      ∀ i, i < bs.length → isSkipped skip i = true := by
  intro fuel
  induction fuel with
  | zero =>
    intro st hst hres
    rw [scanLoop_eq_if] at hres
    by_cases hA : acceptable bs skip tt useF st.current_index = true
    · rw [if_pos hA] at hres
      have := (Bool.and_eq_true _ _).mp hA
      simp only [Bool.not_eq_true'] at this
      exact absurd hres (by simpa using this.1)
    · rw [if_neg hA] at hres
      cases hf : (List.range bs.length).find? (fun i => !isSkipped skip i) with
      | some j =>
        rw [hf] at hres
        have hj := List.find?_some hf
        simp only [Bool.not_eq_true'] at hj
        exact absurd hres (by simpa using hj)
      | none =>
        intro i hi
        have := List.find?_eq_none.mp hf i (List.mem_range.mpr hi)
        simpa using this
  | succ fuel ih =>
    intro st hst hres
    rw [scanLoop_eq_if] at hres
    by_cases hA : acceptable bs skip tt useF st.current_index = true
    · rw [if_pos hA] at hres
      have := (Bool.and_eq_true _ _).mp hA
      simp only [Bool.not_eq_true'] at this
      exact absurd hres (by simpa using this.1)
    · rw [if_neg hA] at hres
      exact ih (Nat.mod_lt _ (Nat.lt_of_le_of_lt (Nat.zero_le _) hst)) hres

/-- When no index at all is acceptable, the scan burns all its fuel and
lands in the fallback, returning the first non-skipped index (the start
index when there is none) with the cursor back where the scan will have
wrapped to and the connection counter zeroed. -/
theorem scanLoop_none_found {bs : List LoadBalancer} {skip : Option (List Bool)}
    {tt : Option TargetAddressType} {useF : Bool} {si : Nat} :
    ∀ (fuel : Nat) {st : PoolState}, st.current_index < bs.length →
      (∀ i, i < bs.length → acceptable bs skip tt useF i = false) →
      scanLoop bs skip tt useF si fuel st =
        (((List.range bs.length).find? (fun i => !isSkipped skip i)).getD si,
         ⟨(st.current_index + fuel + 1) % bs.length, 0⟩) := by
  intro fuel
  induction fuel with
  | zero =>
    intro st hst hall
    have hA : acceptable bs skip tt useF st.current_index = false := hall _ hst
    rw [scanLoop_eq_if, if_neg (by simp [hA])]
    cases hf : (List.range bs.length).find? (fun i => !isSkipped skip i) <;> rfl
  | succ fuel ih =>
    intro st hst hall
    have hA : acceptable bs skip tt useF st.current_index = false := hall _ hst
    rw [scanLoop_eq_if, if_neg (by simp [hA])]
    have hlt : (st.current_index + 1) % bs.length < bs.length :=
      Nat.mod_lt _ (Nat.lt_of_le_of_lt (Nat.zero_le _) hst)
    show scanLoop bs skip tt useF si fuel
        ⟨(st.current_index + 1) % bs.length, 0⟩ =
      (((List.range bs.length).find? (fun i => !isSkipped skip i)).getD si,
        ⟨(st.current_index + (fuel + 1) + 1) % bs.length, 0⟩)
    rw [@ih ⟨(st.current_index + 1) % bs.length, 0⟩ hlt hall]
    have harg : ((st.current_index + 1) % bs.length + fuel + 1) % bs.length =
        (st.current_index + (fuel + 1) + 1) % bs.length := by
      rw [Nat.add_assoc, Nat.mod_add_mod]
      congr 1
      omega
    rw [harg]

/-- get_load_balancer returns an index below the pool size. -/
theorem glb_fst_lt {bs : List LoadBalancer} {skip : Option (List Bool)}
    {tt : Option TargetAddressType} {st : PoolState}
    (hst : st.current_index < bs.length) :
    (get_load_balancer bs skip tt st).1 < bs.length :=
  scanLoop_fst_lt hst _ hst

/-- Selector-state invariant after a completed get_load_balancer call. -/
theorem glb_post_inv {bs : List LoadBalancer} {skip : Option (List Bool)}
    {tt : Option TargetAddressType} {st : PoolState}
    (hw : ∀ lb ∈ bs, 1 ≤ lb.contention_ratio)
    (hst : st.current_index < bs.length) :
    (get_load_balancer bs skip tt st).2.current_index < bs.length ∧
    (get_load_balancer bs skip tt st).2.current_connections <
      (bs.getD (get_load_balancer bs skip tt st).2.current_index
        default).contention_ratio :=
  scanLoop_post_inv hw _ hst

/-- If get_load_balancer returns a skipped index, every index is skipped. -/
theorem glb_skipped {bs : List LoadBalancer} {skip : Option (List Bool)}
    {tt : Option TargetAddressType} {st : PoolState}
    (hst : st.current_index < bs.length)
    (hres : isSkipped skip (get_load_balancer bs skip tt st).1 = true) :
    ∀ i, i < bs.length → isSkipped skip i = true :=
  scanLoop_skipped _ hst hres

/-- When every index is skipped, get_load_balancer returns the original
cursor index and resets the connection counter. -/
theorem glb_all_skipped {bs : List LoadBalancer} {skip : Option (List Bool)}
    {tt : Option TargetAddressType} {st : PoolState}
    (hst : st.current_index < bs.length)
    (hall : ∀ i, i < bs.length → isSkipped skip i = true) :
    get_load_balancer bs skip tt st = (st.current_index, ⟨st.current_index, 0⟩) := by
  have hN : 0 < bs.length := Nat.lt_of_le_of_lt (Nat.zero_le _) hst
  have hallA : ∀ i, i < bs.length →
      acceptable bs skip tt (useFamilyFilter bs skip tt) i = false := by
    intro i hi
    simp [acceptable, hall i hi]
  have hfind : (List.range bs.length).find? (fun i => !isSkipped skip i) = none := by
    refine List.find?_eq_none.mpr ?_
    intro i hi
    simp [hall i (List.mem_range.mp hi)]
  unfold get_load_balancer
  rw [scanLoop_none_found _ hst hallA, hfind]
  have : (st.current_index + (bs.length - 1) + 1) % bs.length = st.current_index := by
    have : st.current_index + (bs.length - 1) + 1 = st.current_index + bs.length := by omega
    rw [this, Nat.add_mod_right, Nat.mod_eq_of_lt hst]
  rw [this]
  rfl

/-- If an acceptable index exists at all, get_load_balancer returns an
acceptable index. -/
theorem glb_finds {bs : List LoadBalancer} {skip : Option (List Bool)}
    {tt : Option TargetAddressType} {st : PoolState}
    (hst : st.current_index < bs.length)
    (hex : ∃ i, i < bs.length ∧
      acceptable bs skip tt (useFamilyFilter bs skip tt) i = true) :
    acceptable bs skip tt (useFamilyFilter bs skip tt)
      (get_load_balancer bs skip tt st).1 = true := by
  obtain ⟨i, hi, hPi⟩ := hex
  have hN : 0 < bs.length := Nat.lt_of_le_of_lt (Nat.zero_le _) hst
  unfold get_load_balancer
  apply scanLoop_finds _ hst
  refine ⟨(i + bs.length - st.current_index) % bs.length, ?_, ?_⟩
  · have := Nat.mod_lt (i + bs.length - st.current_index) hN
    omega
  · have h1 : (st.current_index + (i + bs.length - st.current_index) % bs.length)
        % bs.length = (st.current_index + (i + bs.length - st.current_index))
        % bs.length := Nat.add_mod_mod _ _ _
    have h2 : st.current_index + (i + bs.length - st.current_index) =
        i + bs.length := by omega
    rw [h1, h2, Nat.add_mod_right, Nat.mod_eq_of_lt hi]
    exact hPi

/-- With no skip list and no family hint, every index is acceptable, so a
call returns the cursor index and advances by the contention-ratio rule. -/
theorem glb_none_none_step {bs : List LoadBalancer} {st : PoolState} :
    get_load_balancer bs none none st =
      (st.current_index,
        advanceState bs.length
          (bs.getD st.current_index default).contention_ratio st) := by
  have hA : acceptable bs none none (useFamilyFilter bs none none)
      st.current_index = true := by
    simp [acceptable, isSkipped, familyFilter]
  unfold get_load_balancer
  rw [scanLoop_eq_if, if_pos hA]

/-- Iterated selection: the list of indices returned by n successive
get_load_balancer calls, threading the selector state, together with the
final state. -/
def runSelect (bs : List LoadBalancer) (skip : Option (List Bool))
    (tt : Option TargetAddressType) : Nat → PoolState → List Nat × PoolState
  | 0, st => ([], st)
  | n + 1, st =>
    let r := get_load_balancer bs skip tt st
    let rest := runSelect bs skip tt n r.2
    (r.1 :: rest.1, rest.2)

/-- The first n selected indices starting from the initial selector state. -/
def firstOutputs (bs : List LoadBalancer) (n : Nat) : List Nat :=
  (runSelect bs none none n ⟨0, 0⟩).1

/-- The sum of the contention ratios of the descriptors from index j on. -/
def wsumFrom (bs : List LoadBalancer) (j : Nat) : Nat :=
  ((bs.drop j).map (fun lb => lb.contention_ratio)).sum

/-- The sum of all contention ratios. -/
def totalWeight (bs : List LoadBalancer) : Nat :=
  (bs.map (fun lb => lb.contention_ratio)).sum

/-- The selection pattern of one full round-robin cycle starting at index
j: each index i from j to the end, repeated contention_ratio-many times. -/
def blocksFrom (bs : List LoadBalancer) (j : Nat) : List Nat :=
  ((List.range' j (bs.length - j)).map
    (fun i => List.replicate (bs.getD i default).contention_ratio i)).flatten

/-- One full period of the selection sequence from the initial state. -/
def periodList (bs : List LoadBalancer) : List Nat := blocksFrom bs 0

theorem runSelect_add {bs : List LoadBalancer} {skip : Option (List Bool)}
    {tt : Option TargetAddressType} :
    ∀ (a b : Nat) (st : PoolState),
      runSelect bs skip tt (a + b) st =
        ((runSelect bs skip tt a st).1 ++
          (runSelect bs skip tt b (runSelect bs skip tt a st).2).1,
         (runSelect bs skip tt b (runSelect bs skip tt a st).2).2) := by
  intro a
  induction a with
  | zero =>
    intro b st
    simp [runSelect, Nat.zero_add]
  | succ a ih =>
    intro b st
    rw [Nat.succ_add]
    simp only [runSelect]
    rw [ih]
    rfl

theorem wsumFrom_eq {bs : List LoadBalancer} {j : Nat} (hj : j < bs.length) :
    wsumFrom bs j = (bs.getD j default).contention_ratio + wsumFrom bs (j + 1) := by
  unfold wsumFrom
  rw [List.drop_eq_getElem_cons hj, List.map_cons, List.sum_cons,
    List.getD_eq_getElem _ _ hj]

theorem blocksFrom_eq {bs : List LoadBalancer} {j : Nat} (hj : j < bs.length) :
    blocksFrom bs j =
      List.replicate (bs.getD j default).contention_ratio j ++ blocksFrom bs (j + 1) := by
  unfold blocksFrom
  have h1 : bs.length - j = (bs.length - (j + 1)) + 1 := by omega
  rw [h1, List.range'_succ, List.map_cons, List.flatten_cons]

/-- Running the selector for exactly the contention ratio's remaining
budget at the cursor yields that many copies of the cursor index and
advances the cursor. -/
theorem runSelect_replicate {bs : List LoadBalancer} :
    ∀ (k : Nat) (st : PoolState), st.current_index < bs.length → 0 < k →
      st.current_connections + k = (bs.getD st.current_index default).contention_ratio →
      runSelect bs none none k st =
        (List.replicate k st.current_index,
         ⟨(st.current_index + 1) % bs.length, 0⟩) := by
  intro k
  induction k with
  | zero => intro st _ h0 _; exact absurd h0 (by omega)
  | succ k ih =>
    intro st hst _ hsum
    simp only [runSelect]
    rw [glb_none_none_step]
    by_cases hk : k = 0
    · subst hk
      have hw : (bs.getD st.current_index default).contention_ratio ≤
          st.current_connections + 1 := by omega
      unfold advanceState
      rw [if_pos (by simpa using hw)]
      simp [runSelect, List.replicate]
    · have hlt : ¬ ((bs.getD st.current_index default).contention_ratio ≤
          st.current_connections + 1) := by omega
      unfold advanceState
      rw [if_neg (by simpa using hlt)]
      have := ih ⟨st.current_index, st.current_connections + 1⟩ hst
        (Nat.pos_of_ne_zero hk)
        (show st.current_connections + 1 + k =
          (bs.getD st.current_index default).contention_ratio by omega)
      rw [this]
      simp [List.replicate]

/-- A full cycle of the round-robin from cursor j (connection counter 0)
follows the block pattern and returns the selector to the initial state. -/
theorem runSelect_cycle {bs : List LoadBalancer}
    (hw : ∀ lb ∈ bs, 1 ≤ lb.contention_ratio) :
    ∀ (m j : Nat), j < bs.length → bs.length - j = m + 1 →
      runSelect bs none none (wsumFrom bs j) ⟨j, 0⟩ = (blocksFrom bs j, ⟨0, 0⟩) := by
  intro m
  induction m with
  | zero =>
    intro j hj hm
    have hj1 : j + 1 = bs.length := by omega
    have hw1 : 1 ≤ (bs.getD j default).contention_ratio := hw _ (getD_mem hj)
    have hws : wsumFrom bs j = (bs.getD j default).contention_ratio := by
      rw [wsumFrom_eq hj]
      have : bs.drop (j + 1) = [] := List.drop_eq_nil_of_le (by omega)
      simp [wsumFrom, this]
    rw [hws, runSelect_replicate _ ⟨j, 0⟩ hj (by omega) (by simp)]
    have hb : blocksFrom bs j = List.replicate (bs.getD j default).contention_ratio j := by
      rw [blocksFrom_eq hj]
      have : blocksFrom bs (j + 1) = [] := by
        unfold blocksFrom
        simp [Nat.sub_eq_zero_of_le (le_of_eq hj1.symm)]
      simp [this]
    rw [hb, hj1, Nat.mod_self]
  | succ m ih =>
    intro j hj hm
    have hj1 : j + 1 < bs.length := by omega
    have hw1 : 1 ≤ (bs.getD j default).contention_ratio := hw _ (getD_mem hj)
    rw [wsumFrom_eq hj, runSelect_add]
    rw [runSelect_replicate _ ⟨j, 0⟩ hj (by omega) (by simp)]
    have hmod : (j + 1) % bs.length = j + 1 := Nat.mod_eq_of_lt hj1
    simp only [hmod]
    rw [ih (j + 1) hj1 (by omega)]
    rw [blocksFrom_eq hj]

/-- The length of a block pattern is the corresponding weight sum. -/
theorem blocksFrom_length {bs : List LoadBalancer} :
    ∀ (m j : Nat), bs.length - j = m → (blocksFrom bs j).length = wsumFrom bs j := by
  intro m
  induction m with
  | zero =>
    intro j hm
    have hle : bs.length ≤ j := by omega
    have h1 : blocksFrom bs j = [] := by
      unfold blocksFrom
      simp [Nat.sub_eq_zero_of_le hle]
    have h2 : wsumFrom bs j = 0 := by
      unfold wsumFrom
      simp [List.drop_eq_nil_of_le hle]
    rw [h1, h2]
    rfl
  | succ m ih =>
    intro j hm
    have hj : j < bs.length := by omega
    rw [blocksFrom_eq hj, wsumFrom_eq hj, List.length_append, List.length_replicate,
      ih (j + 1) (by omega)]

/-- Each index i occurs contention_ratio-many times in the block pattern
from j when j ≤ i < length, and never otherwise. -/
theorem blocksFrom_count {bs : List LoadBalancer} :
    ∀ (m j : Nat), bs.length - j = m → ∀ (i : Nat),
      (blocksFrom bs j).count i =
        if j ≤ i ∧ i < bs.length then (bs.getD i default).contention_ratio else 0 := by
  intro m
  induction m with
  | zero =>
    intro j hm i
    have hle : bs.length ≤ j := by omega
    have h1 : blocksFrom bs j = [] := by
      unfold blocksFrom
      simp [Nat.sub_eq_zero_of_le hle]
    rw [h1, if_neg (by omega)]
    rfl
  | succ m ih =>
    intro j hm i
    have hj : j < bs.length := by omega
    rw [blocksFrom_eq hj, List.count_append, List.count_replicate,
      ih (j + 1) (by omega) i]
    by_cases hij : j = i
    · subst hij
      rw [if_pos (by simp), if_neg (by omega), if_pos (by omega), Nat.add_zero]
    · rw [if_neg (by simpa using hij)]
      by_cases hcond : j + 1 ≤ i ∧ i < bs.length
      · rw [if_pos hcond, if_pos (by omega), Nat.zero_add]
      · rw [if_neg hcond, if_neg (by omega), Nat.zero_add]

/-- A two-egress demonstration pool with contention ratios 2 and 1. -/
def demoPool : List LoadBalancer :=
  [⟨"10.0.0.2:0", some "eth0", 2, false⟩, ⟨"10.0.0.3:0", some "eth1", 1, false⟩]

/-- A one-egress demonstration pool with contention ratio 2. -/
def demoSingle : List LoadBalancer := [⟨"10.0.0.2:0", some "eth0", 2, false⟩]

/-- A mixed-family demonstration pool: one v4 egress, one v6 egress. -/
def demoMixed : List LoadBalancer :=
  [⟨"10.0.0.2:0", some "eth0", 1, false⟩, ⟨"[fd00::2]:0", some "eth1", 1, true⟩]

/-- Claim C3: for a pool of N >= 1 descriptors with weights >= 1, starting
from the initial selector state, the index sequence produced by repeated
get_load_balancer(None, None) calls is periodic with period sum(weights)
(each period is the fixed block pattern periodList), and each index i
occurs exactly weight i times per period. -/
theorem claim_C3_weighted_round_robin (bs : List LoadBalancer) (hbs : bs ≠ [])
    (hw : ∀ lb ∈ bs, 1 ≤ lb.contention_ratio) :
    (∀ n, firstOutputs bs (totalWeight bs + n) = periodList bs ++ firstOutputs bs n) ∧
    (periodList bs).length = totalWeight bs ∧
    (∀ i, i < bs.length →
      (periodList bs).count i = (bs.getD i default).contention_ratio) := by
  have hN : 0 < bs.length := List.length_pos.mpr hbs
  have hws : wsumFrom bs 0 = totalWeight bs := by
    unfold wsumFrom totalWeight
    rw [List.drop_zero]
  have hcycle := runSelect_cycle hw (bs.length - 1) 0 hN (by omega)
  refine ⟨?_, ?_, ?_⟩
  · intro n
    unfold firstOutputs
    rw [← hws, runSelect_add, hcycle]
    rfl
  · rw [← hws]
    exact blocksFrom_length bs.length 0 (by omega)
  · intro i hi
    unfold periodList
    rw [blocksFrom_count bs.length 0 (by omega) i, if_pos ⟨Nat.zero_le _, hi⟩]

/-- Witness for C3 at the pool with weights [2, 1]; the first six
selections are 0, 0, 1, 0, 0, 1. -/
theorem claim_C3_witness :
    (demoPool ≠ [] ∧ ∀ lb ∈ demoPool, 1 ≤ lb.contention_ratio) ∧
    ((∀ n, firstOutputs demoPool (totalWeight demoPool + n) =
        periodList demoPool ++ firstOutputs demoPool n) ∧
      (periodList demoPool).length = totalWeight demoPool ∧
      (∀ i, i < demoPool.length →
        (periodList demoPool).count i = (demoPool.getD i default).contention_ratio)) ∧
    firstOutputs demoPool 6 = [0, 0, 1, 0, 0, 1] :=
  ⟨⟨by decide, by decide⟩,
   claim_C3_weighted_round_robin demoPool (by decide) (by decide),
   by decide⟩

/-- Claim C4: get_load_balancer never returns an index whose skip entry is
true unless every index's skip entry is true, in which case it returns the
original cursor index. -/
theorem claim_C4_skip_respected (bs : List LoadBalancer) (skip : Option (List Bool))
    (tt : Option TargetAddressType) (st : PoolState)
    (hst : st.current_index < bs.length) :
    (isSkipped skip (get_load_balancer bs skip tt st).1 = true →
      ∀ i, i < bs.length → isSkipped skip i = true) ∧
    ((∀ i, i < bs.length → isSkipped skip i = true) →
      (get_load_balancer bs skip tt st).1 = st.current_index) := by
  refine ⟨glb_skipped hst, fun h => ?_⟩
  rw [glb_all_skipped hst h]

/-- Witness for C4 with a partially skipped pool. -/
theorem claim_C4_witness :
    (0 : Nat) < demoPool.length ∧
    ((isSkipped (some [true, false])
        (get_load_balancer demoPool (some [true, false]) none ⟨0, 0⟩).1 = true →
      ∀ i, i < demoPool.length → isSkipped (some [true, false]) i = true) ∧
    ((∀ i, i < demoPool.length → isSkipped (some [true, false]) i = true) →
      (get_load_balancer demoPool (some [true, false]) none ⟨0, 0⟩).1 = 0)) :=
  ⟨by decide, claim_C4_skip_respected demoPool (some [true, false]) none ⟨0, 0⟩ (by decide)⟩

/-- Claim C5: with a v4 or v6 family hint, if some non-skipped descriptor
matches the hinted family then a matching non-skipped descriptor is
returned; if no non-skipped descriptor matches, the family filter is
disabled for the call and a non-skipped descriptor is still returned when
one exists. -/
theorem claim_C5_family_affinity (bs : List LoadBalancer) (skip : Option (List Bool))
    (tt : TargetAddressType) (st : PoolState)
    (htt : tt = TargetAddressType.IPv4 ∨ tt = TargetAddressType.IPv6)
    (hst : st.current_index < bs.length) :
    ((∃ i, i < bs.length ∧ isSkipped skip i = false ∧
        familyFilter (some tt) (bs.getD i default) = true) →
      familyFilter (some tt)
        (bs.getD (get_load_balancer bs skip (some tt) st).1 default) = true ∧
      isSkipped skip (get_load_balancer bs skip (some tt) st).1 = false) ∧
    ((∀ i, i < bs.length → familyFilter (some tt) (bs.getD i default) = true →
        isSkipped skip i = true) →
      useFamilyFilter bs skip (some tt) = false ∧
      ((∃ i, i < bs.length ∧ isSkipped skip i = false) →
        isSkipped skip (get_load_balancer bs skip (some tt) st).1 = false)) := by
  clear htt
  constructor
  · rintro ⟨i, hi, hns, hff⟩
    have hmem : i ∈ (List.range bs.length).filter
        (fun i => !isSkipped skip i && familyFilter (some tt) (bs.getD i default)) := by
      refine List.mem_filter.mpr ⟨List.mem_range.mpr hi, ?_⟩
      rw [hns, hff]
      rfl
    have hcnt : 0 < availableCount bs skip (some tt) :=
      List.length_pos.mpr (List.ne_nil_of_mem hmem)
    have huse : useFamilyFilter bs skip (some tt) = true := by
      simp [useFamilyFilter, hcnt]
    have hacc : acceptable bs skip (some tt) (useFamilyFilter bs skip (some tt)) i
        = true := by
      unfold acceptable
      rw [hns, hff]
      cases useFamilyFilter bs skip (some tt) <;> rfl
    have hres := glb_finds hst ⟨i, hi, hacc⟩
    rw [huse] at hres
    unfold acceptable at hres
    have h1 := (Bool.and_eq_true _ _).mp hres
    have h2 := h1.2
    rw [Bool.not_true, Bool.false_or] at h2
    have h3 := h1.1
    rw [Bool.not_eq_true'] at h3
    exact ⟨h2, h3⟩
  · intro hall
    have hcnt : availableCount bs skip (some tt) = 0 := by
      unfold availableCount
      rw [List.length_eq_zero]
      refine List.filter_eq_nil_iff.mpr ?_
      intro i hi
      cases hff : familyFilter (some tt) (bs.getD i default) with
      | false =>
        simp
      | true =>
        have hsk := hall i (List.mem_range.mp hi) hff
        rw [hsk]
        simp
    have huse : useFamilyFilter bs skip (some tt) = false := by
      simp [useFamilyFilter, hcnt]
    refine ⟨huse, ?_⟩
    rintro ⟨i, hi, hns⟩
    have hacc : acceptable bs skip (some tt) (useFamilyFilter bs skip (some tt)) i
        = true := by
      unfold acceptable
      rw [hns, huse]
      rfl
    have hres := glb_finds hst ⟨i, hi, hacc⟩
    unfold acceptable at hres
    have h1 := ((Bool.and_eq_true _ _).mp hres).1
    rw [Bool.not_eq_true'] at h1
    exact h1

/-- Witness for C5 on the mixed-family pool with a v6 hint. -/
theorem claim_C5_witness :
    (TargetAddressType.IPv6 = TargetAddressType.IPv4 ∨
      TargetAddressType.IPv6 = TargetAddressType.IPv6) ∧
    (0 : Nat) < demoMixed.length ∧
    (((∃ i, i < demoMixed.length ∧ isSkipped none i = false ∧
        familyFilter (some TargetAddressType.IPv6) (demoMixed.getD i default) = true) →
      familyFilter (some TargetAddressType.IPv6)
        (demoMixed.getD
          (get_load_balancer demoMixed none (some TargetAddressType.IPv6) ⟨0, 0⟩).1
          default) = true ∧
      isSkipped none
        (get_load_balancer demoMixed none (some TargetAddressType.IPv6) ⟨0, 0⟩).1
        = false) ∧
    ((∀ i, i < demoMixed.length →
        familyFilter (some TargetAddressType.IPv6) (demoMixed.getD i default) = true →
        isSkipped none i = true) →
      useFamilyFilter demoMixed none (some TargetAddressType.IPv6) = false ∧
      ((∃ i, i < demoMixed.length ∧ isSkipped none i = false) →
        isSkipped none
          (get_load_balancer demoMixed none (some TargetAddressType.IPv6) ⟨0, 0⟩).1
          = false))) :=
  ⟨Or.inr rfl, by decide,
   claim_C5_family_affinity demoMixed none TargetAddressType.IPv6 ⟨0, 0⟩
     (Or.inr rfl) (by decide)⟩

/-- Counterexample to claim C6 as stated: with the single-descriptor pool
of weight 2, selector state (cursor 0, hits 1) and every index skipped,
the scan finds nothing and the call returns the original cursor index but
resets the hits counter to 0 instead of leaving the state untouched. -/
theorem claim_C6_counterexample :
    get_load_balancer demoSingle (some [true]) none ⟨0, 1⟩ = (0, ⟨0, 0⟩) ∧
    (get_load_balancer demoSingle (some [true]) none ⟨0, 1⟩).2 ≠ (⟨0, 1⟩ : PoolState) := by
  constructor
  · rfl
  · decide

/-- Claim C6 as amended: whenever the N-iteration scan finds no acceptable
index, the call returns the first non-skipped index (the original cursor
index when every index is skipped), leaves the cursor exactly where it
was, and resets the hits counter to zero. -/
theorem claim_C6_amended_fallback (bs : List LoadBalancer)
    (skip : Option (List Bool)) (tt : Option TargetAddressType) (st : PoolState)
    (hst : st.current_index < bs.length)
    (hnone : ∀ i, i < bs.length →
      acceptable bs skip tt (useFamilyFilter bs skip tt) i = false) :
    get_load_balancer bs skip tt st =
      (((List.range bs.length).find? (fun i => !isSkipped skip i)).getD
          st.current_index,
       ⟨st.current_index, 0⟩) := by
  unfold get_load_balancer
  rw [scanLoop_none_found _ hst hnone]
  have harg : (st.current_index + (bs.length - 1) + 1) % bs.length =
      st.current_index := by
    have hN : 0 < bs.length := Nat.lt_of_le_of_lt (Nat.zero_le _) hst
    have h1 : st.current_index + (bs.length - 1) + 1 =
        st.current_index + bs.length := by omega
    rw [h1, Nat.add_mod_right, Nat.mod_eq_of_lt hst]
  rw [harg]

/-- Witness for the amended C6 on the all-skipped single pool. -/
theorem claim_C6_amended_witness :
    (0 : Nat) < demoSingle.length ∧
    (∀ i, i < demoSingle.length →
      acceptable demoSingle (some [true]) none
        (useFamilyFilter demoSingle (some [true]) none) i = false) ∧
    get_load_balancer demoSingle (some [true]) none ⟨0, 1⟩ =
      (((List.range demoSingle.length).find?
          (fun i => !isSkipped (some [true]) i)).getD 0,
       ⟨0, 0⟩) :=
  ⟨by decide, by decide,
   claim_C6_amended_fallback demoSingle (some [true]) none ⟨0, 1⟩
     (by decide) (by decide)⟩

/-- Claim C9: for a pool with all weights at least 1, immediately after
every completed get_load_balancer call the cursor is in range and the
hits counter is strictly below the cursor descriptor's contention ratio,
for every family hint and skip vector. -/
theorem claim_C9_state_invariant (bs : List LoadBalancer)
    (skip : Option (List Bool)) (tt : Option TargetAddressType) (st : PoolState)
    (hw : ∀ lb ∈ bs, 1 ≤ lb.contention_ratio)
    (hst : st.current_index < bs.length) :
    (get_load_balancer bs skip tt st).2.current_index < bs.length ∧
    (get_load_balancer bs skip tt st).2.current_connections <
      (bs.getD (get_load_balancer bs skip tt st).2.current_index
        default).contention_ratio :=
  glb_post_inv hw hst

/-- Witness for C9 on the mixed pool with a v6 hint and a skip entry. -/
theorem claim_C9_witness :
    ((∀ lb ∈ demoMixed, 1 ≤ lb.contention_ratio) ∧ (0 : Nat) < demoMixed.length) ∧
    ((get_load_balancer demoMixed (some [true, false])
        (some TargetAddressType.IPv6) ⟨0, 0⟩).2.current_index < demoMixed.length ∧
     (get_load_balancer demoMixed (some [true, false])
        (some TargetAddressType.IPv6) ⟨0, 0⟩).2.current_connections <
       (demoMixed.getD
         (get_load_balancer demoMixed (some [true, false])
           (some TargetAddressType.IPv6) ⟨0, 0⟩).2.current_index
         default).contention_ratio) :=
  ⟨⟨by decide, by decide⟩,
   claim_C9_state_invariant demoMixed (some [true, false])
     (some TargetAddressType.IPv6) ⟨0, 0⟩ (by decide) (by decide)⟩

/-- Claim C10: a skip slice shorter than the pool treats every index at or
beyond its length as not skipped, and the call still returns an index
below the pool size. -/
theorem claim_C10_short_skip (bs : List LoadBalancer) (skip : List Bool)
    (tt : Option TargetAddressType) (st : PoolState)
    (hst : st.current_index < bs.length) :
    (∀ i, skip.length ≤ i → isSkipped (some skip) i = false) ∧
    (get_load_balancer bs (some skip) tt st).1 < bs.length := by
  refine ⟨?_, glb_fst_lt hst⟩
  intro i hi
  unfold isSkipped
  exact List.getD_eq_default _ _ hi

/-- Witness for C10: a two-descriptor pool with an empty skip slice. -/
theorem claim_C10_witness :
    (0 : Nat) < demoPool.length ∧
    ((∀ i, (List.length ([] : List Bool)) ≤ i →
        isSkipped (some ([] : List Bool)) i = false) ∧
     (get_load_balancer demoPool (some ([] : List Bool)) none ⟨0, 0⟩).1 <
       demoPool.length) :=
  ⟨by decide, claim_C10_short_skip demoPool [] none ⟨0, 0⟩ (by decide)⟩

/-- The distinct failure exits of the SOCKS5 handshake, mirroring the
bail! sites of src/socks.rs (the short-read constructors stand for the
read_exact failures at the corresponding positions). -/
inductive SocksError where
  | shortGreetingHeader
  | shortAuthMethods
  | greetingVersionMismatch
  | shortRequestHeader
  | requestVersionMismatch
  | unsupportedCommand
  | shortAddress
  | unsupportedAddressType
deriving DecidableEq, Repr

/-- The target descriptor produced by the decoder: the address type tag,
the raw address bytes from the wire (4 bytes, the domain bytes, or 16
bytes) and the big-endian decoded port.  The Rust code renders these into
a text form; the rendering is injective in this data and no claim depends
on it. -/
structure Target where
  atyp : TargetAddressType
  addr : List Nat
  port : Nat
deriving DecidableEq, Repr

/-- read_exact on a byte stream modelled as a list: take n bytes or fail
when fewer remain. -/
def readExact (n : Nat) (input : List Nat) : Option (List Nat × List Nat) :=
  if input.length < n then none else some (input.take n, input.drop n)

/-- send_error_response (src/socks.rs lines 48-52): the fixed 10-byte
reply [5, status, 0, 1, 0, 0, 0, 0, 0, 0].  send_success_response and
send_network_unreachable write the same shape with status 0 and 3. -/
def errorReply (status : Nat) : List Nat := [5, status, 0, 1, 0, 0, 0, 0, 0, 0]

/-- client_connection_request (src/socks.rs lines 89-172) over a byte
stream: returns the bytes written to the client and either the parsed
target or the failure taken.  Address-type constants: 1 = IPV4,
3 = DOMAIN, 4 = IPV6; command constant 1 = CONNECT; status constants
1 = SERVER_FAILURE, 7 = COMMAND_NOT_SUPPORTED, 8 = ADDRTYPE_NOT_SUPPORTED. -/
def client_connection_request (input : List Nat) :
    List Nat × Except SocksError Target :=
  match readExact 4 input with
  | none => ([], Except.error SocksError.shortRequestHeader)
  | some (hdr, rest) =>
    let socks_version := hdr.getD 0 0
    let cmd_code := hdr.getD 1 0
    let address_type := hdr.getD 3 0
    if socks_version ≠ 5 then
      (errorReply 1, Except.error SocksError.requestVersionMismatch)
    else if cmd_code ≠ 1 then
      (errorReply 7, Except.error SocksError.unsupportedCommand)
    else if address_type = 1 then
      match readExact 4 rest with
      | none => ([], Except.error SocksError.shortAddress)
      | some (ipv4_addr, rest2) =>
        match readExact 2 rest2 with
        | none => ([], Except.error SocksError.shortAddress)
        | some (port_bytes, _) =>
          ([], Except.ok ⟨TargetAddressType.IPv4, ipv4_addr,
            port_bytes.getD 0 0 * 256 + port_bytes.getD 1 0⟩)
    else if address_type = 3 then
      match readExact 1 rest with
      | none => ([], Except.error SocksError.shortAddress)
      | some (domain_len, rest2) =>
        match readExact (domain_len.getD 0 0) rest2 with
        | none => ([], Except.error SocksError.shortAddress)
        | some (domain, rest3) =>
          match readExact 2 rest3 with
          | none => ([], Except.error SocksError.shortAddress)
          | some (port_bytes, _) =>
            ([], Except.ok ⟨TargetAddressType.Domain, domain,
              port_bytes.getD 0 0 * 256 + port_bytes.getD 1 0⟩)
    else if address_type = 4 then
      match readExact 16 rest with
      | none => ([], Except.error SocksError.shortAddress)
      | some (ipv6_addr, rest2) =>
        match readExact 2 rest2 with
        | none => ([], Except.error SocksError.shortAddress)
        | some (port_bytes, _) =>
          ([], Except.ok ⟨TargetAddressType.IPv6, ipv6_addr,
            port_bytes.getD 0 0 * 256 + port_bytes.getD 1 0⟩)
    else
      (errorReply 8, Except.error SocksError.unsupportedAddressType)

/-- handle_socks_handshake (src/socks.rs lines 175-189) over a byte
stream: client_greeting reads the 2-byte header and the advertised method
list, the version is then checked (failing without any write), the [5, 0]
method choice is written, and the connection request is parsed. -/
def handle_socks_handshake (input : List Nat) :
    List Nat × Except SocksError Target :=
  match readExact 2 input with
  | none => ([], Except.error SocksError.shortGreetingHeader)
  | some (hdr, rest) =>
    let socks_version := hdr.getD 0 0
    let num_auth_methods := hdr.getD 1 0
    match readExact num_auth_methods rest with
    | none => ([], Except.error SocksError.shortAuthMethods)
    | some (_, rest2) =>
      if socks_version ≠ 5 then
        ([], Except.error SocksError.greetingVersionMismatch)
      else
        let r := client_connection_request rest2
        ([5, 0] ++ r.1, r.2)

/-- The bytes the handshake actually writes on each failure exit: the
three in-request protocol errors produce the mapped 10-byte reply after
the [5, 0] method choice; short reads and a greeting version mismatch
terminate without any error reply. -/
def expectedWritten (e : SocksError) : List Nat :=
  match e with
  | SocksError.shortGreetingHeader => []
  | SocksError.shortAuthMethods => []
  | SocksError.greetingVersionMismatch => []
  | SocksError.shortRequestHeader => [5, 0]
  | SocksError.shortAddress => [5, 0]
  | SocksError.requestVersionMismatch => [5, 0] ++ errorReply 1
  | SocksError.unsupportedCommand => [5, 0] ++ errorReply 7
  | SocksError.unsupportedAddressType => [5, 0] ++ errorReply 8

/-- What client_connection_request writes on each of its failure exits. -/
theorem ccr_written (input : List Nat) :
    ∀ e : SocksError, (client_connection_request input).2 = Except.error e →
      (client_connection_request input).1 =
        match e with
        | SocksError.requestVersionMismatch => errorReply 1
        | SocksError.unsupportedCommand => errorReply 7
        | SocksError.unsupportedAddressType => errorReply 8
        | _ => [] := by
  cases hccr : client_connection_request input with
  | mk w r =>
    intro e he
    have hr : r = Except.error e := he
    subst hr
    unfold client_connection_request at hccr
    dsimp only at hccr
    iterate 8 (all_goals try split at hccr)
    all_goals injection hccr with h1 h2
    all_goals try (injection h2; done)
    all_goals injection h2 with h3
    all_goals subst h3
    all_goals subst h1
    all_goals rfl

/-- client_connection_request only fails with request-level errors. -/
theorem ccr_error_cases (input : List Nat) :
    ∀ e : SocksError, (client_connection_request input).2 = Except.error e →
      e = SocksError.shortRequestHeader ∨ e = SocksError.requestVersionMismatch ∨
      e = SocksError.unsupportedCommand ∨ e = SocksError.shortAddress ∨
      e = SocksError.unsupportedAddressType := by
  cases hccr : client_connection_request input with
  | mk w r =>
    intro e he
    have hr : r = Except.error e := he
    subst hr
    unfold client_connection_request at hccr
    dsimp only at hccr
    iterate 8 (all_goals try split at hccr)
    all_goals injection hccr with h1 h2
    all_goals try (injection h2; done)
    all_goals injection h2 with h3
    all_goals subst h3
    all_goals decide

/-- Claim C2, amended: on every failure of the SOCKS5 handshake, the bytes
written to the client are exactly expectedWritten of the failure: the
method-choice bytes [5, 0] followed by the mapped 10-byte reply for a
request version mismatch (0x01), an unsupported command (0x07) or an
unsupported address type (0x08), and no error reply at all for short
reads or a greeting version mismatch. -/
theorem claim_C2_error_replies (input : List Nat) (e : SocksError)
    (h : (handle_socks_handshake input).2 = Except.error e) :
    (handle_socks_handshake input).1 = expectedWritten e := by
  revert h
  cases hh : handle_socks_handshake input with
  | mk w r =>
    intro he
    have hr : r = Except.error e := he
    subst hr
    unfold handle_socks_handshake at hh
    dsimp only at hh
    iterate 3 (all_goals try split at hh)
    · injection hh with h1 h2
      injection h2 with h3
      subst h3
      subst h1
      rfl
    · injection hh with h1 h2
      injection h2 with h3
      subst h3
      subst h1
      rfl
    · injection hh with h1 h2
      injection h2 with h3
      subst h3
      subst h1
      rfl
    · injection hh with h1 h2
      have hw2 := ccr_written _ e h2
      have hcases := ccr_error_cases _ e h2
      subst h1
      rw [hw2]
      rcases hcases with h | h | h | h | h <;> subst h <;> rfl

/-- Counterexample to claim C2 as stated: a greeting whose version byte is
4 makes decoding fail with a version mismatch, yet the server writes
nothing at all (handle_socks_handshake bails before any write), not the
claimed 10-byte 0x01 reply. -/
theorem claim_C2_counterexample :
    (handle_socks_handshake [4, 0]).2 =
      Except.error SocksError.greetingVersionMismatch ∧
    (handle_socks_handshake [4, 0]).1 = [] :=
  ⟨rfl, rfl⟩

/-- Witness for the amended C2 at a BIND request (command byte 0x02). -/
theorem claim_C2_witness :
    (handle_socks_handshake
        [5, 1, 0, 5, 2, 0, 1, 1, 2, 3, 4, 0, 80]).2 =
      Except.error SocksError.unsupportedCommand ∧
    (handle_socks_handshake
        [5, 1, 0, 5, 2, 0, 1, 1, 2, 3, 4, 0, 80]).1 =
      expectedWritten SocksError.unsupportedCommand :=
  ⟨rfl,
   claim_C2_error_replies [5, 1, 0, 5, 2, 0, 1, 1, 2, 3, 4, 0, 80]
     SocksError.unsupportedCommand rfl⟩

/-- The family of a resolved socket address (the std::net::SocketAddr
is_ipv4 / is_ipv6 distinction). -/
inductive AddrFamily where
  | v4
  | v6
deriving DecidableEq, Repr

/-- A resolved socket address: its family plus an abstract identifier
distinguishing the addresses of a resolution list. -/
structure ResolvedAddr where
  ident : Nat
  family : AddrFamily
deriving DecidableEq, Repr

/-- SocketAddr::is_ipv4. -/
def ResolvedAddr.is_ipv4 (a : ResolvedAddr) : Bool :=
  match a.family with
  | AddrFamily.v4 => true
  | AddrFamily.v6 => false

/-- The socket2 Domain argument passed to Socket::new. -/
inductive SocketDomain where
  | IPV4
  | IPV6
deriving DecidableEq, Repr

/-- The address-resolution and socket-domain phase of
connect_with_interface (src/platform/linux.rs lines 19-32; identically
src/platform/generic.rs lines 16-29): resolve stands for
ToSocketAddrs::to_socket_addrs.  Both platform implementations take the
first IPv4 candidate of each resolution (find(|a| a.is_ipv4())) and
create a Domain::IPV4 socket, independently of lb.is_ipv6. -/
def connect_with_interface_setup (resolve : String → List ResolvedAddr)
    (target_addr : String) (lb : LoadBalancer) :
    Except String (ResolvedAddr × ResolvedAddr × SocketDomain) :=
  match (resolve lb.address).find? ResolvedAddr.is_ipv4 with
  | none => Except.error "Could not resolve local address"
  | some local_addr =>
    match (resolve target_addr).find? ResolvedAddr.is_ipv4 with
    | none => Except.error "Could not resolve target address"
    | some target =>
      Except.ok (local_addr, target, SocketDomain.IPV4)

/-- Whatever succeeds in connect_with_interface is an IPv4 bind address,
an IPv4 target address and an IPV4-domain socket: the egress family is
never consulted. -/
theorem setup_always_ipv4 (resolve : String → List ResolvedAddr)
    (target_addr : String) (lb : LoadBalancer)
    (la ta : ResolvedAddr) (d : SocketDomain)
    (h : connect_with_interface_setup resolve target_addr lb =
      Except.ok (la, ta, d)) :
    d = SocketDomain.IPV4 ∧ la.is_ipv4 = true ∧ ta.is_ipv4 = true := by
  unfold connect_with_interface_setup at h
  split at h
  · exact absurd h (by simp)
  · next hl =>
    split at h
    · exact absurd h (by simp)
    · next ht =>
      injection h with h1
      injection h1 with hla h2
      injection h2 with hta hd
      subst hla
      subst hta
      subst hd
      exact ⟨rfl, List.find?_some hl, List.find?_some ht⟩

/-- An IPv6 egress together with the realistic resolution behaviour of
its bracketed v6 bind-address literal: it resolves to a single IPv6
socket address (and the IPv6 target literal likewise). -/
def demoV6lb : LoadBalancer := ⟨"[fd00::2]:0", some "eth1", 1, true⟩

/-- Resolution oracle for the demonstration: every address literal in
play resolves to one IPv6 socket address. -/
def demoV6resolve : String → List ResolvedAddr :=
  fun s => if s = "[fd00::2]:0" then [⟨0, AddrFamily.v6⟩] else [⟨1, AddrFamily.v6⟩]

/-- Claim C1 evaluated at the failing input: for the v6 egress whose bind
address resolves (as a bracketed v6 literal does) only to an IPv6 socket
address, connect_with_interface fails with "Could not resolve local
address" instead of resolving to the first v6 candidate and creating an
IPv6 socket as the claim requires. -/
theorem claim_C1_v6_egress_fails :
    demoV6lb.is_ipv6 = true ∧
    (demoV6resolve demoV6lb.address).map ResolvedAddr.family = [AddrFamily.v6] ∧
    connect_with_interface_setup demoV6resolve "[2606:4700:4700::1111]:443" demoV6lb =
      Except.error "Could not resolve local address" :=
  ⟨rfl, rfl, rfl⟩

/-- Observable actions of the per-connection engine against the client
and the network. -/
inductive EngineEvent where
  | selectedLB (idx : Nat)
  | connectAttempt (address : String)
  | wroteToClient (bytes : List Nat)
  | relayStarted
deriving DecidableEq, Repr

/-- connect_and_relay (src/platform/mod.rs lines 21-44), with the
outbound connect modelled by the oracle connectOk target lb.  The single
pool selection uses skip None and Some(target_type); on connect success
the SUCCESS reply (errorReply 0, the shape written by
send_success_response) is written and the bidirectional relay starts; on
failure the NETWORK_UNREACHABLE reply (errorReply 3) is written and the
error is returned.  The returned Bool is true on the Ok path. -/
def connect_and_relay (bs : List LoadBalancer) (st : PoolState)
    (target_addr : String) (target_type : TargetAddressType)
    (connectOk : String → LoadBalancer → Bool) : List EngineEvent × Bool :=
  let r := get_load_balancer bs none (some target_type) st
  let lb := bs.getD r.1 default
  if connectOk target_addr lb then
    ([EngineEvent.selectedLB r.1, EngineEvent.connectAttempt lb.address,
      EngineEvent.wroteToClient (errorReply 0), EngineEvent.relayStarted], true)
  else
    ([EngineEvent.selectedLB r.1, EngineEvent.connectAttempt lb.address,
      EngineEvent.wroteToClient (errorReply 3)], false)

/-- Claim C7: in SOCKS mode connect_and_relay performs exactly one pool
selection and exactly one connect attempt; on failure the last action is
writing the 10-byte NETWORK_UNREACHABLE reply, the relay never starts and
the call returns the error; on success the SUCCESS reply is written and
the relay starts immediately after it. -/
theorem claim_C7_single_selection (bs : List LoadBalancer) (st : PoolState)
    (target_addr : String) (target_type : TargetAddressType)
    (connectOk : String → LoadBalancer → Bool) :
    ((connect_and_relay bs st target_addr target_type connectOk).1.filter
        (fun ev => match ev with
          | EngineEvent.selectedLB _ => true
          | _ => false)).length = 1 ∧
    ((connect_and_relay bs st target_addr target_type connectOk).1.filter
        (fun ev => match ev with
          | EngineEvent.connectAttempt _ => true
          | _ => false)).length = 1 ∧
    ((connect_and_relay bs st target_addr target_type connectOk).2 = false →
      (connect_and_relay bs st target_addr target_type connectOk).1.getLast? =
        some (EngineEvent.wroteToClient (errorReply 3)) ∧
      EngineEvent.relayStarted ∉
        (connect_and_relay bs st target_addr target_type connectOk).1) ∧
    ((connect_and_relay bs st target_addr target_type connectOk).2 = true →
      (connect_and_relay bs st target_addr target_type connectOk).1 =
        [EngineEvent.selectedLB (get_load_balancer bs none (some target_type) st).1,
         EngineEvent.connectAttempt
           (bs.getD (get_load_balancer bs none (some target_type) st).1 default).address,
         EngineEvent.wroteToClient (errorReply 0), EngineEvent.relayStarted]) := by
  unfold connect_and_relay
  dsimp only
  cases hc : connectOk target_addr
      (bs.getD (get_load_balancer bs none (some target_type) st).1 default) with
  | false =>
    rw [if_neg (by simp [hc])]
    refine ⟨by simp [List.filter], by simp [List.filter], ?_, by simp⟩
    intro _
    refine ⟨by simp, ?_⟩
    simp
  | true =>
    rw [if_pos (by simp [hc])]
    refine ⟨by simp [List.filter], by simp [List.filter], by simp, by simp⟩

theorem getD_set_self {l : List Bool} {i : Nat} (h : i < l.length) :
    (l.set i true).getD i false = true := by
  rw [List.getD_eq_getElem?_getD, List.getElem?_set]
  simp [h]

theorem getD_set_ne (l : List Bool) {i j : Nat} (b : Bool) (h : i ≠ j) :
    (l.set i b).getD j false = l.getD j false := by
  rw [List.getD_eq_getElem?_getD, List.getElem?_set, if_neg h,
    ← List.getD_eq_getElem?_getD]

theorem count_false_set {l : List Bool} {i : Nat} (h : i < l.length)
    (hf : l.getD i false = false) :
    (l.set i true).count false + 1 = l.count false := by
  rw [List.getD_eq_getElem _ _ h] at hf
  have hmem : false ∈ l := hf ▸ List.getElem_mem h
  have hpos : 0 < l.count false := List.count_pos_iff.mpr hmem
  rw [List.count_set _ _ _ _ h, hf]
  simp
  omega

theorem count_false_pos {l : List Bool} (h : l.all (fun t => t) = false) :
    1 ≤ l.count false := by
  obtain ⟨x, hx, hpx⟩ := List.all_eq_false.mp h
  have hxf : x = false := by
    cases x
    · rfl
    · exact absurd rfl hpx
  exact List.count_pos_iff.mpr (hxf ▸ hx)

theorem all_true_getD {l : List Bool} (h : l.all (fun t => t) = true)
    {i : Nat} (hi : i < l.length) : l.getD i false = true := by
  rw [List.getD_eq_getElem _ _ hi]
  exact List.all_eq_true.mp h _ (List.getElem_mem hi)

theorem all_of_getD {l : List Bool} (h : ∀ i, i < l.length → l.getD i false = true) :
    l.all (fun t => t) = true := by
  refine List.all_eq_true.mpr ?_
  intro x hx
  obtain ⟨i, hi, rfl⟩ := List.mem_iff_getElem.mp hx
  have h2 := h i hi
  rw [List.getD_eq_getElem _ _ hi] at h2
  exact h2

theorem getD_replicate_false (n i : Nat) :
    (List.replicate n false).getD i false = false := by
  rw [List.getD_eq_getElem?_getD, List.getElem?_replicate]
  split <;> rfl

/-- The outcome of one tunnel-mode client connection: the sequence of
egress indices whose connect was attempted, whether a connect succeeded
(the relay was entered), and the final tried (skip) vector. -/
structure TunnelOutcome where
  attempts : List Nat
  ok : Bool
  tried : List Bool
deriving DecidableEq, Repr

/-- The retry loop of handle_tunnel_connection (src/main.rs lines
297-318), with TcpStream::connect to lb.address modelled by the
per-egress oracle connects idx.  fuel bounds the iterations;
handle_tunnel_connection passes enough fuel that it is never exhausted,
since every failing iteration marks a previously unmarked index. -/
def tunnelLoop (bs : List LoadBalancer) (connects : Nat → Bool) :
    Nat → List Bool → PoolState → TunnelOutcome
  | 0, tried, _ => ⟨[], false, tried⟩
  | fuel + 1, tried, st =>
    let r := get_load_balancer bs (some tried) none st
    if connects r.1 then ⟨[r.1], true, tried⟩
    else
      let tried2 := tried.set r.1 true
      if tried2.all (fun t => t) then ⟨[r.1], false, tried2⟩
      else
        let rest := tunnelLoop bs connects fuel tried2 r.2
        ⟨r.1 :: rest.attempts, rest.ok, rest.tried⟩

/-- handle_tunnel_connection (src/main.rs lines 288-319): the tried
vector starts as vec![false; pool.len()] and the loop runs until a
connect succeeds or every entry of tried is true. -/
def handle_tunnel_connection (bs : List LoadBalancer) (connects : Nat → Bool)
    (st : PoolState) : TunnelOutcome :=
  tunnelLoop bs connects bs.length (List.replicate bs.length false) st

/-- Invariant specification for the tunnel retry loop, relative to the
tried vector at entry. -/
def TunnelSpec (bs : List LoadBalancer) (connects : Nat → Bool)
    (tried : List Bool) (out : TunnelOutcome) : Prop :=
  (∀ j ∈ out.attempts, j < bs.length ∧ tried.getD j false = false) ∧
  out.attempts.Nodup ∧
  out.attempts ≠ [] ∧
  (out.ok = true → ∃ pre final, out.attempts = pre ++ [final] ∧
    connects final = true ∧ ∀ j ∈ pre, connects j = false) ∧
  (out.ok = false → (∀ j ∈ out.attempts, connects j = false) ∧
    (∀ i, i < bs.length → tried.getD i false = false → i ∈ out.attempts)) ∧
  (∀ i, out.tried.getD i false = true ↔
    (tried.getD i false = true ∨ (i ∈ out.attempts ∧ connects i = false))) ∧
  out.tried.length = tried.length

theorem tunnelLoop_spec (bs : List LoadBalancer) (connects : Nat → Bool)
    (hw : ∀ lb ∈ bs, 1 ≤ lb.contention_ratio) :
    ∀ (fuel : Nat) (tried : List Bool) (st : PoolState),
      tried.length = bs.length → st.current_index < bs.length →
      tried.count false ≤ fuel → tried.all (fun t => t) = false →
      TunnelSpec bs connects tried (tunnelLoop bs connects fuel tried st) := by
  intro fuel
  induction fuel with
  | zero =>
    intro tried st hlen hst hcount hall
    exact absurd hcount (by
      have := count_false_pos hall
      omega)
  | succ fuel ih =>
    intro tried st hlen hst hcount hall
    have hN : 0 < bs.length := Nat.lt_of_le_of_lt (Nat.zero_le _) hst
    have hidx : (get_load_balancer bs (some tried) none st).1 < bs.length :=
      glb_fst_lt hst
    have huntried : tried.getD (get_load_balancer bs (some tried) none st).1 false
        = false := by
      by_contra hcon
      have hsk : isSkipped (some tried) (get_load_balancer bs (some tried) none st).1
          = true := by
        unfold isSkipped
        cases h : tried.getD (get_load_balancer bs (some tried) none st).1 false
        · exact absurd h hcon
        · exact h
      have hallsk := glb_skipped hst hsk
      have : tried.all (fun t => t) = true := by
        refine all_of_getD ?_
        intro i hi
        have := hallsk i (by omega)
        unfold isSkipped at this
        exact this
      rw [this] at hall
      cases hall
    have hpost : (get_load_balancer bs (some tried) none st).2.current_index
        < bs.length := (glb_post_inv hw hst).1
    simp only [tunnelLoop]
    cases hc : connects (get_load_balancer bs (some tried) none st).1 with
    | true =>
      rw [if_pos rfl]
      refine ⟨?_, by simp, by simp, ?_, ?_, ?_, rfl⟩
      · intro j hj
        have : j = (get_load_balancer bs (some tried) none st).1 := by simpa using hj
        subst this
        exact ⟨hidx, huntried⟩
      · intro _
        exact ⟨[], (get_load_balancer bs (some tried) none st).1, rfl, hc, by simp⟩
      · intro h
        cases h
      · intro i
        constructor
        · intro h
          exact Or.inl h
        · rintro (h | ⟨hmem, hfail⟩)
          · exact h
          · have : i = (get_load_balancer bs (some tried) none st).1 := by
              simpa using hmem
            subst this
            rw [hc] at hfail
            cases hfail
    | false =>
      rw [if_neg (by simp)]
      cases hall2 : (tried.set (get_load_balancer bs (some tried) none st).1
          true).all (fun t => t) with
      | true =>
        rw [if_pos rfl]
        refine ⟨?_, by simp, by simp, ?_, ?_, ?_, ?_⟩
        · intro j hj
          have : j = (get_load_balancer bs (some tried) none st).1 := by simpa using hj
          subst this
          exact ⟨hidx, huntried⟩
        · intro h
          cases h
        · intro _
          constructor
          · intro j hj
            have : j = (get_load_balancer bs (some tried) none st).1 := by
              simpa using hj
            subst this
            exact hc
          · intro i hi hif
            have hA := all_true_getD hall2 (i := i)
              (by rw [List.length_set, hlen]; exact hi)
            by_cases heq : i = (get_load_balancer bs (some tried) none st).1
            · simp [heq]
            · rw [getD_set_ne _ _ (fun h => heq h.symm)] at hA
              rw [hA] at hif
              cases hif
        · intro i
          by_cases heq : i = (get_load_balancer bs (some tried) none st).1
          · subst heq
            have hset := getD_set_self (l := tried)
              (i := (get_load_balancer bs (some tried) none st).1)
              (by rw [hlen]; exact hidx)
            rw [hset]
            constructor
            · intro _
              exact Or.inr ⟨by simp, hc⟩
            · intro _
              rfl
          · rw [getD_set_ne _ _ (fun h => heq h.symm)]
            constructor
            · intro h
              exact Or.inl h
            · rintro (h | ⟨hmem, hfail⟩)
              · exact h
              · have : i = (get_load_balancer bs (some tried) none st).1 := by
                  simpa using hmem
                exact absurd this heq
        · rw [List.length_set]
      | false =>
        rw [if_neg (by simp)]
        have hlen2 : (tried.set (get_load_balancer bs (some tried) none st).1
            true).length = bs.length := by rw [List.length_set, hlen]
        have hcount2 : (tried.set (get_load_balancer bs (some tried) none st).1
            true).count false ≤ fuel := by
          have := count_false_set (l := tried)
            (i := (get_load_balancer bs (some tried) none st).1)
            (by rw [hlen]; exact hidx) huntried
          omega
        have hS := ih (tried.set (get_load_balancer bs (some tried) none st).1 true)
          (get_load_balancer bs (some tried) none st).2 hlen2 hpost hcount2 hall2
        obtain ⟨hS1, hS2, hS3, hS4, hS5, hS6, hS7⟩ := hS
        have hsetself : (tried.set (get_load_balancer bs (some tried) none st).1
            true).getD (get_load_balancer bs (some tried) none st).1 false = true :=
          getD_set_self (by rw [hlen]; exact hidx)
        have hnotmem : (get_load_balancer bs (some tried) none st).1 ∉
            (tunnelLoop bs connects fuel
              (tried.set (get_load_balancer bs (some tried) none st).1 true)
              (get_load_balancer bs (some tried) none st).2).attempts := by
          intro hmem
          have := (hS1 _ hmem).2
          rw [hsetself] at this
          cases this
        refine ⟨?_, ?_, by simp, ?_, ?_, ?_, ?_⟩
        · intro j hj
          rcases List.mem_cons.mp hj with hj | hj
          · subst hj
            exact ⟨hidx, huntried⟩
          · have h1 := hS1 _ hj
            have hne : j ≠ (get_load_balancer bs (some tried) none st).1 := by
              intro h
              subst h
              rw [hsetself] at h1
              exact absurd h1.2 (by simp)
            refine ⟨h1.1, ?_⟩
            have := h1.2
            rw [getD_set_ne _ _ (fun h => hne h.symm)] at this
            exact this
        · exact List.nodup_cons.mpr ⟨hnotmem, hS2⟩
        · intro hok
          obtain ⟨pre, final, heq, hcf, hpre⟩ := hS4 hok
          refine ⟨(get_load_balancer bs (some tried) none st).1 :: pre, final, ?_,
            hcf, ?_⟩
          · simp [heq]
          · intro j hj
            rcases List.mem_cons.mp hj with hj | hj
            · subst hj
              exact hc
            · exact hpre _ hj
        · intro hok
          obtain ⟨hfail, hcov⟩ := hS5 hok
          constructor
          · intro j hj
            rcases List.mem_cons.mp hj with hj | hj
            · subst hj
              exact hc
            · exact hfail _ hj
          · intro i hi hif
            by_cases heq : i = (get_load_balancer bs (some tried) none st).1
            · subst heq
              exact List.mem_cons_self _ _
            · have : (tried.set (get_load_balancer bs (some tried) none st).1
                  true).getD i false = false := by
                rw [getD_set_ne _ _ (fun h => heq h.symm)]
                exact hif
              exact List.mem_cons_of_mem _ (hcov i hi this)
        · intro i
          rw [hS6 i]
          by_cases heq : i = (get_load_balancer bs (some tried) none st).1
          · subst heq
            rw [hsetself]
            constructor
            · intro _
              exact Or.inr ⟨List.mem_cons_self _ _, hc⟩
            · intro _
              exact Or.inl rfl
          · rw [getD_set_ne _ _ (fun h => heq h.symm)]
            constructor
            · rintro (h | ⟨hmem, hfail⟩)
              · exact Or.inl h
              · exact Or.inr ⟨List.mem_cons_of_mem _ hmem, hfail⟩
            · rintro (h | ⟨hmem, hfail⟩)
              · exact Or.inl h
              · rcases List.mem_cons.mp hmem with h2 | h2
                · exact absurd h2 heq
                · exact Or.inr ⟨h2, hfail⟩
        · rw [hS7, List.length_set]

/-- Claim C8: in tunnel mode, every failed egress is marked in the skip
vector (the final tried entries are exactly the attempted-and-failed
indices), no egress is attempted twice, success is returned with the
succeeding egress as the last attempt after only failures, and the
pool-exhausted error occurs exactly when connecting to every egress in
the pool fails, in which case every egress was attempted. -/
theorem claim_C8_tunnel_failover (bs : List LoadBalancer) (connects : Nat → Bool)
    (st : PoolState) (hbs : bs ≠ [])
    (hw : ∀ lb ∈ bs, 1 ≤ lb.contention_ratio)
    (hst : st.current_index < bs.length) :
    (handle_tunnel_connection bs connects st).attempts.Nodup ∧
    (∀ i, (handle_tunnel_connection bs connects st).tried.getD i false = true ↔
      (i ∈ (handle_tunnel_connection bs connects st).attempts ∧
        connects i = false)) ∧
    ((handle_tunnel_connection bs connects st).ok = true →
      ∃ pre final,
        (handle_tunnel_connection bs connects st).attempts = pre ++ [final] ∧
        connects final = true ∧ ∀ j ∈ pre, connects j = false) ∧
    ((handle_tunnel_connection bs connects st).ok = false ↔
      ∀ i, i < bs.length → connects i = false) ∧
    ((handle_tunnel_connection bs connects st).ok = false →
      ∀ i, i < bs.length →
        i ∈ (handle_tunnel_connection bs connects st).attempts) := by
  unfold handle_tunnel_connection
  have hN : 0 < bs.length := List.length_pos.mpr hbs
  have hrep : ∀ i, (List.replicate bs.length false).getD i false = false :=
    fun i => getD_replicate_false _ _
  have hlen : (List.replicate bs.length false).length = bs.length :=
    List.length_replicate _ _
  have hcount : (List.replicate bs.length false).count false ≤ bs.length := by
    rw [List.count_replicate]
    simp
  have hall : (List.replicate bs.length false).all (fun t => t) = false := by
    refine List.all_eq_false.mpr ⟨false, ?_, by simp⟩
    exact List.mem_replicate.mpr ⟨by omega, rfl⟩
  obtain ⟨hS1, hS2, hS3, hS4, hS5, hS6, hS7⟩ :=
    tunnelLoop_spec bs connects hw bs.length (List.replicate bs.length false) st
      hlen hst hcount hall
  refine ⟨hS2, ?_, hS4, ⟨?_, ?_⟩, ?_⟩
  · intro i
    have h6 := hS6 i
    rw [hrep i] at h6
    rw [h6]
    constructor
    · rintro (h | h)
      · cases h
      · exact h
    · intro h
      exact Or.inr h
  · intro hok
    obtain ⟨hfail, hcov⟩ := hS5 hok
    intro i hi
    exact hfail _ (hcov i hi (hrep i))
  · intro hallfail
    cases hok : (tunnelLoop bs connects bs.length (List.replicate bs.length false) st).ok
    · rfl
    · obtain ⟨pre, final, heq, hcf, _⟩ := hS4 hok
      have hmem : final ∈
          (tunnelLoop bs connects bs.length (List.replicate bs.length false) st).attempts := by
        rw [heq]
        simp
      have hlt := (hS1 _ hmem).1
      rw [hallfail final hlt] at hcf
      cases hcf
  · intro hok i hi
    exact (hS5 hok).2 i hi (hrep i)

/-- Per-egress connect oracle for the C8 witness: index 0 fails, index 1
succeeds. -/
def demoConnects : Nat → Bool := fun i => decide (i = 1)

/-- Witness for C8 on the two-egress pool where the first egress fails
and the second succeeds. -/
theorem claim_C8_witness :
    (demoPool ≠ [] ∧ (∀ lb ∈ demoPool, 1 ≤ lb.contention_ratio) ∧
      (0 : Nat) < demoPool.length) ∧
    ((handle_tunnel_connection demoPool demoConnects ⟨0, 0⟩).attempts.Nodup ∧
    (∀ i, (handle_tunnel_connection demoPool demoConnects ⟨0, 0⟩).tried.getD i false
        = true ↔
      (i ∈ (handle_tunnel_connection demoPool demoConnects ⟨0, 0⟩).attempts ∧
        demoConnects i = false)) ∧
    ((handle_tunnel_connection demoPool demoConnects ⟨0, 0⟩).ok = true →
      ∃ pre final,
        (handle_tunnel_connection demoPool demoConnects ⟨0, 0⟩).attempts =
          pre ++ [final] ∧
        demoConnects final = true ∧ ∀ j ∈ pre, demoConnects j = false) ∧
    ((handle_tunnel_connection demoPool demoConnects ⟨0, 0⟩).ok = false ↔
      ∀ i, i < demoPool.length → demoConnects i = false) ∧
    ((handle_tunnel_connection demoPool demoConnects ⟨0, 0⟩).ok = false →
      ∀ i, i < demoPool.length →
        i ∈ (handle_tunnel_connection demoPool demoConnects ⟨0, 0⟩).attempts)) :=
  ⟨⟨by decide, by decide, by decide⟩,
   claim_C8_tunnel_failover demoPool demoConnects ⟨0, 0⟩
     (by decide) (by decide) (by decide)⟩

end DispatchProxy
